import Mathlib

set_option maxHeartbeats 1000000

/-!
Verification development for the terraperf-landing waitlist service.

The repository has two entry points:
  * `src/api/lambda/lambda_handler.py` — AWS Lambda handler backed by DynamoDB;
  * `src/api/waitlist_api.py` — FastAPI app, file-backed in local mode and
    DynamoDB-backed in production mode.

We embed the request handlers as pure Lean functions.  Stateful storage is
passed explicitly: the DynamoDB table is a list of entries keyed by the exact
`email` attribute (the table key), and the local JSON file is a `FileDoc`
value.  Server-generated data (uuid, timestamps, client ip) are parameters.

Strings are modelled over Unicode code points as in Python; the character
classes of the source (`[a-zA-Z0-9._%+-]` and friends) are ASCII, and
`str.lower` / `str.strip` are modelled on their ASCII fragment
(`Char.toLower`, and stripping the six ASCII whitespace characters that
`str.strip` removes).  Non-ASCII characters are never accepted by the email
validator, before or after lowering, so this fragment decides every claim.
-/

namespace Terraperf

/-- ASCII model of Python `str.lower` applied to one character.
`Char.toLower` lowers exactly the range A-Z, as Python does on ASCII. -/
def pyLowerChar (c : Char) : Char := Char.toLower c

/-- One character of Python `str.lower` applied pointwise to a string. -/
def toLowerStr (s : String) : String := String.mk (s.data.map pyLowerChar)

/-- The six ASCII whitespace characters removed by Python `str.strip()`:
space, tab, newline, carriage return, vertical tab, form feed. -/
def isPySpace (c : Char) : Bool :=
  c == ' ' || c == '\t' || c == '\n' || c == '\r' || c == '\x0B' || c == '\x0C'

/-- Python `str.strip()` on a character list: drop whitespace from both ends. -/
def pyStrip (cs : List Char) : List Char :=
  ((cs.dropWhile isPySpace).reverse.dropWhile isPySpace).reverse

/-- Embedding of the normalization `email.lower().strip()` used by every
handler before lookup or storage (lambda_handler.py lines 87 and 139,
waitlist_api.py lines 124 and 202). -/
def normalizeEmail (s : String) : String :=
  String.mk (pyStrip (s.data.map pyLowerChar))

/-! ## The email regular expression

`EMAIL_REGEX = re.compile(r"^[a-zA-Z0-9._%+-]+@[a-zA-Z0-9.-]+\.[a-zA-Z]{2,}$")`
(lambda_handler.py line 23).  We embed an acceptance test for this concrete
pattern: `p+` and `p*` pieces try every split (acceptance is existence of a
decomposition, so greediness is irrelevant), and the `$` anchor has the
Python semantics: it matches at the end of the string or just before a
newline that ends the string. -/

/-- Character class `[a-zA-Z0-9._%+-]` (the local part of the regex). -/
def isLocalChar (c : Char) : Bool :=
  c.isAlpha || c.isDigit || c == '.' || c == '_' || c == '%' || c == '+' || c == '-'

/-- Character class `[a-zA-Z0-9.-]` (the domain part of the regex). -/
def isDomainChar (c : Char) : Bool :=
  c.isAlpha || c.isDigit || c == '.' || c == '-'

/-- Match `p+` and then continue with `k`, trying every possible split. -/
def plusThen (p : Char → Bool) (k : List Char → Bool) : List Char → Bool
  | [] => false
  | c :: cs => p c && (k cs || plusThen p k cs)

/-- Match `p*` and then continue with `k`, trying every possible split. -/
def starThen (p : Char → Bool) (k : List Char → Bool) : List Char → Bool
  | [] => k []
  | c :: cs => k (c :: cs) || (p c && starThen p k cs)

/-- Match the literal character `a` and then continue with `k`. -/
def litThen (a : Char) (k : List Char → Bool) : List Char → Bool
  | [] => false
  | c :: cs => c == a && k cs

/-- Python `$` anchor: end of input, or a single newline ending the input. -/
def dollarEnd : List Char → Bool
  | [] => true
  | c :: cs => c == '\n' && cs == []

/-- Match `[a-zA-Z]{2,}$`: two alphabetic characters, then more, then `$`. -/
def tldThen : List Char → Bool
  | a :: b :: cs => a.isAlpha && b.isAlpha && starThen Char.isAlpha dollarEnd cs
  | _ => false

/-- Match `[a-zA-Z0-9.-]+\.` followed by the top-level-domain piece. -/
def domainThen (cs : List Char) : Bool :=
  plusThen isDomainChar (litThen '.' tldThen) cs

/-- Acceptance test of `EMAIL_REGEX` (re.match is anchored at the start). -/
def emailRegexMatches (s : String) : Bool :=
  plusThen isLocalChar (litThen '@' domainThen) s.data

/-- Embedding of `validate_email` (lambda_handler.py lines 56-60):
reject the empty string and strings longer than 254 code points, then test
the regex. -/
def validate_email (email : String) : Bool :=
  if email == "" || 254 < email.length then false
  else emailRegexMatches email

/-! ## The spec-side email predicate

Stated from the specification words (spec §4.1 / claim C7): a valid email is
non-empty, at most 254 characters, and of the shape `localpart@domain.tld`
where the localpart is a non-empty run of letters, digits and `._%+-`, the
domain is a non-empty sequence of dot-separated labels over letters, digits
and `-` (rendered as a non-empty string over those characters and dots), and
the final label — the part after the last dot — is at least two alphabetic
characters.  The end of the string is the end of the email: no trailing
characters are allowed. -/

/-- Checker for the `domain.tld` part of the spec syntax: split at the last
dot; before it a non-empty dot-separated label sequence (a non-empty string
over letters, digits, `-` and dots), after it a final label of at least two
alphabetic characters. -/
def specDomainTld (dom : List Char) : Bool :=
  match dom.reverse.dropWhile (fun c => c != '.') with
  | c :: drev =>
      c == '.' && decide (drev ≠ []) && drev.all isDomainChar &&
      decide (2 ≤ (dom.reverse.takeWhile (fun c => c != '.')).length) &&
      (dom.reverse.takeWhile (fun c => c != '.')).all Char.isAlpha
  | [] => false

/-- Checker for the spec syntax `localpart@domain.tld`, splitting at the
(unique) `@` and at the last dot of the domain portion. -/
def specEmailForm (s : String) : Bool :=
  match s.data.dropWhile (fun c => c != '@') with
  | c :: dom =>
      c == '@' && decide (s.data.takeWhile (fun c => c != '@') ≠ []) &&
      (s.data.takeWhile (fun c => c != '@')).all isLocalChar && specDomainTld dom
  | [] => false

/-- The full spec-side validity predicate of claim C7: non-empty, at most
254 characters, and exactly of the `localpart@domain.tld` shape. -/
def specEmailValid (s : String) : Bool :=
  decide (s ≠ "") && decide (s.length ≤ 254) && specEmailForm s

/-- The decomposition shape shared by the regex and the spec syntax: a
non-empty localpart, `@`, a non-empty domain run, a dot, and an alphabetic
final label of length at least two. -/
def EmailShape (cs : List Char) : Prop :=
  ∃ l d t, cs = l ++ '@' :: (d ++ '.' :: t) ∧
    l ≠ [] ∧ (∀ c ∈ l, isLocalChar c = true) ∧
    d ≠ [] ∧ (∀ c ∈ d, isDomainChar c = true) ∧
    2 ≤ t.length ∧ (∀ c ∈ t, c.isAlpha = true)

/-! ## Data model -/

/-- One persisted waitlist record.  Both backends store the same seven
fields (lambda_handler.py lines 114-122, waitlist_api.py lines 136-144). -/
structure Entry where
  email : String
  id : String
  consent : Bool
  consent_timestamp : String
  source : String
  ip_address : String
  created_at : String
deriving DecidableEq

/-- Response bodies produced by the handlers (the JSON dictionaries passed
to `response(...)` in lambda_handler.py, and the FastAPI return values). -/
inductive RespBody where
  /-- An error body of the shape `det: msg`. -/
  | det (msg : String)
  /-- The stats body with the subscriber count. -/
  | stats (total : Nat)
  /-- The subscribe success body: success flag, message, fresh id. -/
  | subscribed (msg : String) (id : String)
  /-- A success body with only a message (unsubscribe). -/
  | okMsg (msg : String)
  /-- The health body. -/
  | health
deriving DecidableEq

/-- An HTTP response: status code and body.  CORS headers are computed by
an external collaborator and carry no claim content, so they are omitted. -/
structure Resp where
  statusCode : Nat
  body : RespBody
deriving DecidableEq

/-- The parsed JSON request body of `POST /waitlist`.  Absent fields are
`none`; `body.get(k, default)` is modelled by `Option.getD`.  The `consent`
value is modelled as a JSON boolean (the handlers only branch on its
truthiness). -/
structure SubscribeBody where
  email : Option String
  consent : Option Bool
  consent_timestamp : Option String
  source : Option String
deriving DecidableEq

/-- Server-side data generated while handling one request: the fresh
`uuid4` token, the current UTC timestamp, and the client network origin. -/
structure RequestEnv where
  newId : String
  nowIso : String
  clientIp : String
deriving DecidableEq

/-! ## The DynamoDB table model

Modelled from the spec: the managed key-value store is an external
collaborator (spec §1, §4.2) with capability set get/put/delete/count,
keyed by the `email` attribute; `put` is an unconditional upsert by key,
`delete` removes the key if present and succeeds either way, and `count`
is the exact full-collection count (`scan(Select="COUNT")`). -/

/-- Model of `table.get_item` keyed by email: the item with that exact key. -/
def dynGet (tbl : List Entry) (key : String) : Option Entry :=
  tbl.find? (fun e => e.email == key)

/-- Model of `table.put_item`: upsert by the `email` key. -/
def dynPut (tbl : List Entry) (e : Entry) : List Entry :=
  (tbl.filter (fun x => x.email != e.email)) ++ [e]

/-- Model of `table.delete_item` keyed by email: remove the key if present;
idempotent (succeeds when the key is absent). -/
def dynDelete (tbl : List Entry) (key : String) : List Entry :=
  tbl.filter (fun e => e.email != key)

/-- Model of the counting scan `table.scan`: the exact number of items. -/
def dynCount (tbl : List Entry) : Nat := tbl.length

/-! ## Lambda handlers (lambda_handler.py) -/

/-- Embedding of `handle_subscribe` (lambda_handler.py lines 78-133) on the
fault-free storage path: normalize the email, validate it, validate
consent, reject duplicates via `get_item`, then `put_item` a fresh entry.
Returns the response and the resulting table.  The source message
"You ... been added to our waiting list!" is written without its
apostrophe. -/
def handle_subscribe (body : SubscribeBody) (env : RequestEnv)
    (tbl : List Entry) : Resp × List Entry :=
  let email := normalizeEmail (body.email.getD "")
  let consent := body.consent.getD false
  let consentTs := body.consent_timestamp.getD env.nowIso
  let src := body.source.getD "landing_page"
  if validate_email email = false then
    (⟨400, .det "Invalid email address"⟩, tbl)
  else if consent = false then
    (⟨400, .det "Consent must be given to join the waitlist"⟩, tbl)
  else
    match dynGet tbl email with
    | some _ => (⟨400, .det "This email is already on the waitlist."⟩, tbl)
    | none =>
        let entry : Entry :=
          { email := email, id := env.newId, consent := consent,
            consent_timestamp := consentTs, source := src,
            ip_address := env.clientIp, created_at := env.nowIso }
        (⟨200, .subscribed "You have been added to our waiting list!" env.newId⟩,
         dynPut tbl entry)

/-- Embedding of `handle_get_stats` (lambda_handler.py lines 63-75): the
table scan either yields a count or a `ClientError`; the error is surfaced
as a 500 response. -/
def handle_get_stats (scan : Except Unit Nat) : Resp :=
  match scan with
  | .ok n => ⟨200, .stats n⟩
  | .error _ => ⟨500, .det "Database error"⟩

/-- Embedding of `handle_unsubscribe` (lambda_handler.py lines 136-159) on
the fault-free storage path: normalize, validate the email syntax, check
existence via `get_item` (404 when absent), then `delete_item`. -/
def handle_unsubscribe (rawEmail : String) (tbl : List Entry) :
    Resp × List Entry :=
  let email := normalizeEmail rawEmail
  if validate_email email = false then
    (⟨400, .det "Invalid email address"⟩, tbl)
  else
    match dynGet tbl email with
    | none => (⟨404, .det "Email not found"⟩, tbl)
    | some _ => (⟨200, .okMsg "Email removed from waitlist"⟩, dynDelete tbl email)

/-! ## FastAPI app (waitlist_api.py), local file-backed mode -/

/-- The persisted local JSON file: absent, undecodable, or a decoded array
of entries. -/
inductive FileDoc where
  /-- The file does not exist yet. -/
  | missing
  /-- The file exists but `json.loads` raises `JSONDecodeError`. -/
  | malformed
  /-- The file decodes to an array of entries. -/
  | good (entries : List Entry)
deriving DecidableEq

/-- Embedding of `load_waitlist` (waitlist_api.py lines 65-78) in local
mode: a missing file is created empty and read as `[]`; a malformed file is
read as `[]` (the `JSONDecodeError` handler returns `[]`). -/
def load_waitlist : FileDoc → List Entry
  | .missing => []
  | .malformed => []
  | .good es => es

/-- Embedding of `save_waitlist` (waitlist_api.py lines 81-87): rewrite the
whole document. -/
def save_waitlist (es : List Entry) : FileDoc := .good es

/-- Embedding of `email_exists` (waitlist_api.py lines 90-92): compare the
lowered stored email with the lowered probe. -/
def email_exists (email : String) (entries : List Entry) : Bool :=
  entries.any (fun e => toLowerStr e.email == toLowerStr email)

/-- Embedding of the pydantic validator `WaitlistEntry.consent_must_be_true`
(waitlist_api.py lines 51-56): reject a falsy consent value. -/
def consent_must_be_true (v : Bool) : Except String Bool :=
  if v = false then .error "Consent must be given to join the waitlist"
  else .ok v

/-- The request model `WaitlistEntry` as it reaches the `subscribe` handler:
its fields after framework validation. -/
structure WaitlistEntry where
  email : String
  consent : Bool
  consent_timestamp : String
  source : String
deriving DecidableEq

/-- The outcome of a local-mode handler: the response, the resulting file
state, and whether `save_waitlist` was invoked at all. -/
structure LocalOutcome where
  resp : Resp
  doc : FileDoc
  wrote : Bool
deriving DecidableEq

/-- Embedding of the local branch of `subscribe` (waitlist_api.py lines
119-155): normalize, reject duplicates via `email_exists` (no write), else
append a fresh entry and save.  The source success message is written
without its apostrophe. -/
def subscribe_local (entry : WaitlistEntry) (env : RequestEnv)
    (doc : FileDoc) : LocalOutcome :=
  let email := normalizeEmail entry.email
  let entries := load_waitlist doc
  if email_exists email entries then
    ⟨⟨400, .det "This email is already on the waitlist."⟩, doc, false⟩
  else
    let newEntry : Entry :=
      { email := email, id := env.newId, consent := entry.consent,
        consent_timestamp := entry.consent_timestamp, source := entry.source,
        ip_address := env.clientIp, created_at := env.nowIso }
    ⟨⟨200, .subscribed "You have been added to our waiting list!" env.newId⟩,
     save_waitlist (entries ++ [newEntry]), true⟩

/-- Embedding of `get_waitlist_stats` (waitlist_api.py lines 109-116) in
local mode: always a 200 with the length of the loaded list. -/
def get_waitlist_stats (doc : FileDoc) : Resp :=
  ⟨200, .stats (load_waitlist doc).length⟩

/-- Embedding of the local branch of `unsubscribe` (waitlist_api.py lines
199-213): normalize, drop every entry whose lowered stored email equals the
normalized target, 404 if nothing was dropped, else save. -/
def unsubscribe_local (rawEmail : String) (doc : FileDoc) : LocalOutcome :=
  let email := normalizeEmail rawEmail
  let entries := load_waitlist doc
  let remaining := entries.filter (fun e => toLowerStr e.email != email)
  if remaining.length = entries.length then
    ⟨⟨404, .det "Email not found"⟩, doc, false⟩
  else
    ⟨⟨200, .okMsg "Email removed from waitlist"⟩, save_waitlist remaining, true⟩

/-- Embedding of the production (DynamoDB) branch of `unsubscribe`
(waitlist_api.py lines 215-226) on the fault-free path: no syntax
validation and no existence check — `delete_item` is issued unconditionally
and the handler reports success whether or not the email was stored. -/
def unsubscribe_remote (rawEmail : String) (tbl : List Entry) :
    Resp × List Entry :=
  let email := normalizeEmail rawEmail
  (⟨200, .okMsg "Email removed from waitlist"⟩, dynDelete tbl email)

/-! ## Character and normalization lemmas -/

theorem char_toNat_ofNat {n : Nat} (h : n.isValidChar) : (Char.ofNat n).toNat = n := by
  simp [Char.ofNat, dif_pos h, Char.ofNatAux, Char.toNat, UInt32.toNat]

theorem toLower_of_upper {c : Char} (h : 65 ≤ c.toNat ∧ c.toNat ≤ 90) :
    Char.toLower c = Char.ofNat (c.toNat + 32) := by
  rw [Char.toLower, if_pos h]

theorem toLower_toNat_of_upper {c : Char} (h : 65 ≤ c.toNat ∧ c.toNat ≤ 90) :
    (Char.toLower c).toNat = c.toNat + 32 := by
  rw [toLower_of_upper h, char_toNat_ofNat (Or.inl (by omega))]

theorem toLower_eq_self_of_not_upper {c : Char} (h : ¬(65 ≤ c.toNat ∧ c.toNat ≤ 90)) :
    Char.toLower c = c := by
  rw [Char.toLower, if_neg h]

theorem pyLowerChar_idem (c : Char) : pyLowerChar (pyLowerChar c) = pyLowerChar c := by
  unfold pyLowerChar
  by_cases h : 65 ≤ c.toNat ∧ c.toNat ≤ 90
  · have h1 : (Char.toLower c).toNat = c.toNat + 32 := toLower_toNat_of_upper h
    exact toLower_eq_self_of_not_upper (by omega)
  · rw [toLower_eq_self_of_not_upper h]
    exact toLower_eq_self_of_not_upper h

theorem isPySpace_eq_false_of_toNat {c : Char}
    (h : ¬(c.toNat = 32 ∨ c.toNat = 9 ∨ c.toNat = 10 ∨ c.toNat = 13 ∨
           c.toNat = 11 ∨ c.toNat = 12)) : isPySpace c = false := by
  unfold isPySpace
  simp only [Bool.or_eq_false_iff, beq_eq_false_iff_ne]
  refine ⟨⟨⟨⟨⟨?_, ?_⟩, ?_⟩, ?_⟩, ?_⟩, ?_⟩ <;> (rintro rfl; exact h (by decide))

theorem isPySpace_pyLowerChar (c : Char) : isPySpace (pyLowerChar c) = isPySpace c := by
  unfold pyLowerChar
  by_cases h : 65 ≤ c.toNat ∧ c.toNat ≤ 90
  · have h1 : (Char.toLower c).toNat = c.toNat + 32 := toLower_toNat_of_upper h
    rw [isPySpace_eq_false_of_toNat (by omega), isPySpace_eq_false_of_toNat (by omega)]
  · rw [toLower_eq_self_of_not_upper h]

theorem pyStrip_eq_rdropWhile (cs : List Char) :
    pyStrip cs = List.rdropWhile isPySpace (cs.dropWhile isPySpace) := rfl

theorem dropWhile_eq_self_of_prefix {p : Char → Bool} {a b : List Char}
    (hb : b <+: a) (ha : List.dropWhile p a = a) : List.dropWhile p b = b := by
  cases b with
  | nil => rfl
  | cons x b2 =>
      obtain ⟨t, ht⟩ := hb
      subst ht
      have hx : p x = false := by
        by_contra hpx
        rw [Bool.not_eq_false] at hpx
        rw [List.cons_append, List.dropWhile_cons_of_pos hpx] at ha
        have hle : (List.dropWhile p (b2 ++ t)).length ≤ (b2 ++ t).length :=
          (List.dropWhile_sublist p).length_le
        rw [ha] at hle
        simp at hle
      rw [List.dropWhile_cons_of_neg (by simp [hx])]

theorem pyStrip_idem (cs : List Char) : pyStrip (pyStrip cs) = pyStrip cs := by
  rw [pyStrip_eq_rdropWhile, pyStrip_eq_rdropWhile]
  have ha : List.dropWhile isPySpace (cs.dropWhile isPySpace) = cs.dropWhile isPySpace :=
    List.dropWhile_idempotent isPySpace cs
  have hb : List.dropWhile isPySpace
      (List.rdropWhile isPySpace (cs.dropWhile isPySpace)) =
      List.rdropWhile isPySpace (cs.dropWhile isPySpace) :=
    dropWhile_eq_self_of_prefix (List.rdropWhile_prefix isPySpace _) ha
  rw [hb, List.rdropWhile_idempotent]

theorem pyStrip_map_pyLowerChar (cs : List Char) :
    pyStrip (cs.map pyLowerChar) = (pyStrip cs).map pyLowerChar := by
  have hcomp : (isPySpace ∘ pyLowerChar) = isPySpace := funext isPySpace_pyLowerChar
  simp only [pyStrip, List.dropWhile_map, hcomp, ← List.map_reverse]

theorem map_pyLowerChar_idem (cs : List Char) :
    (cs.map pyLowerChar).map pyLowerChar = cs.map pyLowerChar := by
  simp only [List.map_map]
  exact List.map_congr_left (fun c _ => pyLowerChar_idem c)

theorem normalizeEmail_data (s : String) :
    (normalizeEmail s).data = pyStrip (s.data.map pyLowerChar) := rfl

theorem toLowerStr_data (s : String) : (toLowerStr s).data = s.data.map pyLowerChar := rfl

theorem normalizeEmail_idem (s : String) :
    normalizeEmail (normalizeEmail s) = normalizeEmail s := by
  show String.mk (pyStrip ((pyStrip (s.data.map pyLowerChar)).map pyLowerChar)) = _
  rw [← pyStrip_map_pyLowerChar, map_pyLowerChar_idem, pyStrip_idem]
  rfl

theorem toLowerStr_normalizeEmail (s : String) :
    toLowerStr (normalizeEmail s) = normalizeEmail s := by
  show String.mk ((pyStrip (s.data.map pyLowerChar)).map pyLowerChar) = _
  rw [← pyStrip_map_pyLowerChar, map_pyLowerChar_idem]
  rfl

theorem normalizeEmail_congr_lower {x y : String} (h : toLowerStr y = toLowerStr x) :
    normalizeEmail y = normalizeEmail x := by
  have hd : y.data.map pyLowerChar = x.data.map pyLowerChar := congrArg String.data h
  show String.mk (pyStrip (y.data.map pyLowerChar)) = _
  rw [hd]
  rfl

theorem toLowerStr_of_normalized {x : String} (h : x = normalizeEmail x) :
    toLowerStr x = x := by
  conv_lhs => rw [h]
  rw [toLowerStr_normalizeEmail, ← h]

/-! ## Regex characterization lemmas -/

theorem plusThen_iff (p : Char → Bool) (k : List Char → Bool) (cs : List Char) :
    plusThen p k cs = true ↔
      ∃ l r, cs = l ++ r ∧ l ≠ [] ∧ (∀ c ∈ l, p c = true) ∧ k r = true := by
  induction cs with
  | nil =>
      constructor
      · intro h; simp [plusThen] at h
      · rintro ⟨l, r, hsplit, hne, -, -⟩
        cases l with
        | nil => exact absurd rfl hne
        | cons a l2 => simp at hsplit
  | cons c cs ih =>
      constructor
      · intro h
        simp only [plusThen, Bool.and_eq_true, Bool.or_eq_true] at h
        obtain ⟨hpc, hk | hrec⟩ := h
        · exact ⟨[c], cs, rfl, by simp, by simp [hpc], hk⟩
        · obtain ⟨l, r, hsplit, hne, hall, hk⟩ := ih.mp hrec
          refine ⟨c :: l, r, by rw [hsplit]; rfl, by simp, ?_, hk⟩
          intro x hx
          rcases List.mem_cons.mp hx with h1 | h2
          · subst h1; exact hpc
          · exact hall x h2
      · rintro ⟨l, r, hsplit, hne, hall, hk⟩
        cases l with
        | nil => exact absurd rfl hne
        | cons a l2 =>
            rw [List.cons_append] at hsplit
            injection hsplit with h1 h2
            subst h1
            simp only [plusThen, Bool.and_eq_true, Bool.or_eq_true]
            refine ⟨hall c (by simp), ?_⟩
            cases l2 with
            | nil => left; rw [h2]; exact hk
            | cons b l3 =>
                right
                refine ih.mpr ⟨b :: l3, r, h2, by simp, ?_, hk⟩
                intro x hx
                exact hall x (List.mem_cons_of_mem c hx)

theorem starThen_iff (p : Char → Bool) (k : List Char → Bool) (cs : List Char) :
    starThen p k cs = true ↔
      ∃ l r, cs = l ++ r ∧ (∀ c ∈ l, p c = true) ∧ k r = true := by
  induction cs with
  | nil =>
      constructor
      · intro h
        exact ⟨[], [], rfl, by simp, h⟩
      · rintro ⟨l, r, hsplit, -, hk⟩
        have hl : l = [] := by
          cases l with
          | nil => rfl
          | cons a l2 => simp at hsplit
        subst hl
        have hr : r = [] := by simpa using hsplit.symm
        subst hr
        exact hk
  | cons c cs ih =>
      constructor
      · intro h
        simp only [starThen, Bool.and_eq_true, Bool.or_eq_true] at h
        rcases h with hk | ⟨hpc, hrec⟩
        · exact ⟨[], c :: cs, rfl, by simp, hk⟩
        · obtain ⟨l, r, hsplit, hall, hk⟩ := ih.mp hrec
          refine ⟨c :: l, r, by rw [hsplit]; rfl, ?_, hk⟩
          intro x hx
          rcases List.mem_cons.mp hx with h1 | h2
          · subst h1; exact hpc
          · exact hall x h2
      · rintro ⟨l, r, hsplit, hall, hk⟩
        simp only [starThen, Bool.and_eq_true, Bool.or_eq_true]
        cases l with
        | nil =>
            left
            have hr : r = c :: cs := by simpa using hsplit.symm
            subst hr
            exact hk
        | cons a l2 =>
            rw [List.cons_append] at hsplit
            injection hsplit with h1 h2
            subst h1
            right
            exact ⟨hall c (by simp),
              ih.mpr ⟨l2, r, h2, fun x hx => hall x (List.mem_cons_of_mem c hx), hk⟩⟩

theorem litThen_iff (a : Char) (k : List Char → Bool) (cs : List Char) :
    litThen a k cs = true ↔ ∃ r, cs = a :: r ∧ k r = true := by
  cases cs with
  | nil => simp [litThen]
  | cons c r =>
      simp only [litThen, Bool.and_eq_true, beq_iff_eq]
      constructor
      · rintro ⟨rfl, hk⟩; exact ⟨r, rfl, hk⟩
      · rintro ⟨r2, heq, hk⟩
        injection heq with h1 h2
        subst h1; subst h2
        exact ⟨rfl, hk⟩

theorem dollarEnd_iff (cs : List Char) :
    dollarEnd cs = true ↔ cs = [] ∨ cs = ['\n'] := by
  cases cs with
  | nil => simp [dollarEnd]
  | cons c r =>
      simp only [dollarEnd, Bool.and_eq_true, beq_iff_eq]
      constructor
      · rintro ⟨rfl, hr⟩
        right
        have hr2 : r = [] := by simpa using hr
        rw [hr2]
      · rintro (h | h)
        · simp at h
        · injection h with h1 h2
          subst h1; subst h2
          exact ⟨rfl, rfl⟩

theorem tldThen_iff (cs : List Char) :
    tldThen cs = true ↔
      ∃ t n, cs = t ++ n ∧ 2 ≤ t.length ∧ (∀ c ∈ t, c.isAlpha = true) ∧
        (n = [] ∨ n = ['\n']) := by
  constructor
  · rcases cs with - | ⟨a, cs1⟩
    · intro h; simp [tldThen] at h
    rcases cs1 with - | ⟨b, cs2⟩
    · intro h; simp [tldThen] at h
    intro h
    simp only [tldThen, Bool.and_eq_true] at h
    obtain ⟨⟨ha, hb⟩, hstar⟩ := h
    obtain ⟨l, r, hsplit, hall, hd⟩ := (starThen_iff _ _ _).mp hstar
    refine ⟨a :: b :: l, r, by rw [hsplit]; rfl, by simp, ?_,
      (dollarEnd_iff r).mp hd⟩
    intro x hx
    rcases List.mem_cons.mp hx with h1 | hx2
    · subst h1; exact ha
    rcases List.mem_cons.mp hx2 with h2 | hx3
    · subst h2; exact hb
    · exact hall x hx3
  · rintro ⟨t, n, hsplit, hlen, hall, hn⟩
    rcases t with - | ⟨a, t1⟩
    · simp at hlen
    rcases t1 with - | ⟨b, t2⟩
    · simp at hlen
    subst hsplit
    simp only [List.cons_append, tldThen, Bool.and_eq_true]
    refine ⟨⟨hall a (by simp), hall b (by simp)⟩, ?_⟩
    refine (starThen_iff _ _ _).mpr ⟨t2, n, rfl, ?_, (dollarEnd_iff n).mpr hn⟩
    intro x hx
    exact hall x (by simp [hx])

theorem emailRegexMatches_iff (s : String) :
    emailRegexMatches s = true ↔
      (EmailShape s.data ∨ ∃ cs, s.data = cs ++ ['\n'] ∧ EmailShape cs) := by
  unfold emailRegexMatches
  constructor
  · intro h
    obtain ⟨l, r, hsplit, hlne, hlall, hk⟩ := (plusThen_iff _ _ _).mp h
    obtain ⟨r2, hr2, hdom⟩ := (litThen_iff _ _ _).mp hk
    unfold domainThen at hdom
    obtain ⟨d, r3, hd3, hdne, hdall, hk3⟩ := (plusThen_iff _ _ _).mp hdom
    obtain ⟨r4, hr4, htld⟩ := (litThen_iff _ _ _).mp hk3
    obtain ⟨t, n, htn, htlen, htall, hn⟩ := (tldThen_iff _).mp htld
    subst htn
    subst hr4
    subst hd3
    subst hr2
    rcases hn with rfl | rfl
    · left
      refine ⟨l, d, t, ?_, hlne, hlall, hdne, hdall, htlen, htall⟩
      simpa using hsplit
    · right
      refine ⟨l ++ '@' :: (d ++ '.' :: t), ?_,
        l, d, t, rfl, hlne, hlall, hdne, hdall, htlen, htall⟩
      rw [hsplit]
      simp
  · intro h
    have key : ∀ (cs n : List Char), EmailShape cs → (n = [] ∨ n = ['\n']) →
        plusThen isLocalChar (litThen '@' domainThen) (cs ++ n) = true := by
      rintro cs n ⟨l, d, t, rfl, hlne, hlall, hdne, hdall, htlen, htall⟩ hn
      have hassoc : (l ++ '@' :: (d ++ '.' :: t)) ++ n =
          l ++ '@' :: (d ++ '.' :: (t ++ n)) := by simp
      rw [hassoc]
      refine (plusThen_iff _ _ _).mpr
        ⟨l, '@' :: (d ++ '.' :: (t ++ n)), rfl, hlne, hlall, ?_⟩
      refine (litThen_iff _ _ _).mpr ⟨d ++ '.' :: (t ++ n), rfl, ?_⟩
      unfold domainThen
      refine (plusThen_iff _ _ _).mpr ⟨d, '.' :: (t ++ n), rfl, hdne, hdall, ?_⟩
      refine (litThen_iff _ _ _).mpr ⟨t ++ n, rfl, ?_⟩
      exact (tldThen_iff _).mpr ⟨t, n, rfl, htlen, htall, hn⟩
    rcases h with h | ⟨cs, heq, h⟩
    · have := key s.data [] h (Or.inl rfl)
      simpa using this
    · rw [heq]
      exact key cs ['\n'] h (Or.inr rfl)

/-! ## Spec-syntax characterization lemmas -/

theorem takeWhile_middle (p : Char → Bool) (l : List Char) (a : Char) (r : List Char)
    (hl : ∀ c ∈ l, p c = true) (ha : p a = false) :
    (l ++ a :: r).takeWhile p = l ∧ (l ++ a :: r).dropWhile p = a :: r := by
  induction l with
  | nil =>
      constructor
      · exact List.takeWhile_cons_of_neg (by simp [ha])
      · exact List.dropWhile_cons_of_neg (by simp [ha])
  | cons x l2 ih =>
      have hx : p x = true := hl x (by simp)
      have ih2 := ih (fun c hc => hl c (by simp [hc]))
      constructor
      · rw [List.cons_append, List.takeWhile_cons_of_pos hx, ih2.1]
      · rw [List.cons_append, List.dropWhile_cons_of_pos hx, ih2.2]

theorem isLocalChar_ne_at {c : Char} (h : isLocalChar c = true) : (c != '@') = true := by
  simp only [bne_iff_ne, ne_eq]
  rintro rfl
  exact absurd h (by decide)

theorem isAlpha_ne_dot {c : Char} (h : c.isAlpha = true) : (c != '.') = true := by
  simp only [bne_iff_ne, ne_eq]
  rintro rfl
  exact absurd h (by decide)

theorem specDomainTld_iff (dom : List Char) :
    specDomainTld dom = true ↔
      ∃ d t, dom = d ++ '.' :: t ∧ d ≠ [] ∧ (∀ c ∈ d, isDomainChar c = true) ∧
        2 ≤ t.length ∧ (∀ c ∈ t, c.isAlpha = true) := by
  constructor
  · intro h
    unfold specDomainTld at h
    split at h
    case h_2 => simp at h
    case h_1 c drev heq =>
      simp only [Bool.and_eq_true, beq_iff_eq, decide_eq_true_eq,
        List.all_eq_true] at h
      obtain ⟨⟨⟨⟨hc, hdne⟩, hdall⟩, htlen⟩, htall⟩ := h
      subst hc
      have hsplit : dom.reverse.takeWhile (fun c => c != '.') ++ ('.' :: drev) =
          dom.reverse := by
        rw [← heq]
        exact List.takeWhile_append_dropWhile _ _
      have hdom : dom = drev.reverse ++ '.' ::
          (dom.reverse.takeWhile (fun c => c != '.')).reverse := by
        have h2 := congrArg List.reverse hsplit
        simpa using h2.symm
      refine ⟨drev.reverse,
        (dom.reverse.takeWhile (fun c => c != '.')).reverse, hdom,
        by simpa using hdne, ?_, by simpa using htlen, ?_⟩
      · intro c hc
        exact hdall c (List.mem_reverse.mp hc)
      · intro c hc
        exact htall c (List.mem_reverse.mp hc)
  · rintro ⟨d, t, rfl, hdne, hdall, htlen, htall⟩
    unfold specDomainTld
    have hrev : (d ++ '.' :: t).reverse = t.reverse ++ '.' :: d.reverse := by simp
    have hmid := takeWhile_middle (fun c => c != '.') t.reverse '.' d.reverse
      (fun c hc => isAlpha_ne_dot (htall c (List.mem_reverse.mp hc))) (by simp)
    rw [hrev, hmid.2, hmid.1]
    simp only [Bool.and_eq_true, beq_iff_eq, decide_eq_true_eq, List.all_eq_true,
      List.length_reverse, List.mem_reverse]
    simp only [hdne, htlen, ne_eq, List.reverse_eq_nil_iff, not_false_eq_true,
      and_true, true_and]
    exact ⟨hdall, htall⟩

theorem specEmailForm_iff (s : String) :
    specEmailForm s = true ↔ EmailShape s.data := by
  constructor
  · intro h
    unfold specEmailForm at h
    split at h
    case h_2 => simp at h
    case h_1 c dom heq =>
      simp only [Bool.and_eq_true, beq_iff_eq, decide_eq_true_eq,
        List.all_eq_true] at h
      obtain ⟨⟨⟨hc, hlne⟩, hlall⟩, hdom⟩ := h
      subst hc
      obtain ⟨d, t, hdeq, hdne, hdall, htlen, htall⟩ := (specDomainTld_iff dom).mp hdom
      have hsplit : s.data.takeWhile (fun c => c != '@') ++ ('@' :: dom) = s.data := by
        rw [← heq]
        exact List.takeWhile_append_dropWhile _ _
      refine ⟨s.data.takeWhile (fun c => c != '@'), d, t, ?_, hlne, hlall,
        hdne, hdall, htlen, htall⟩
      rw [hdeq] at hsplit
      exact hsplit.symm
  · rintro ⟨l, d, t, heq, hlne, hlall, hdne, hdall, htlen, htall⟩
    unfold specEmailForm
    have hmid := takeWhile_middle (fun c => c != '@') l '@' (d ++ '.' :: t)
      (fun c hc => isLocalChar_ne_at (hlall c hc)) (by simp)
    rw [heq, hmid.2, hmid.1]
    simp only [Bool.and_eq_true, beq_iff_eq, decide_eq_true_eq, List.all_eq_true]
    refine ⟨⟨⟨?_, hlne⟩, hlall⟩,
      (specDomainTld_iff _).mpr ⟨d, t, rfl, hdne, hdall, htlen, htall⟩⟩
    trivial

/-! ## Claim C7 -/

/-- C7, corrected.  The email validity predicate `validate_email` accepts
exactly the strings that are non-empty, at most 254 characters, and match
the `localpart@domain.tld` syntax of the claim EITHER exactly OR after
removing a single newline that ends the string.  The newline allowance is
forced by the Python semantics of the `$` anchor in `EMAIL_REGEX` (it
matches just before a trailing newline), and is the one divergence from
the claim as stated. -/
theorem C7_validate_email_characterization (s : String) :
    validate_email s = true ↔
      (s ≠ "" ∧ s.length ≤ 254 ∧
        (specEmailForm s = true ∨
          ∃ cs, s.data = cs ++ ['\n'] ∧ specEmailForm (String.mk cs) = true)) := by
  unfold validate_email
  by_cases hemp : s = ""
  · subst hemp
    simp
  · by_cases hlen : 254 < s.length
    · have hc : (s == "" || decide (254 < s.length)) = true := by
        simp [hlen]
      rw [hc]
      simp only [if_true]
      constructor
      · intro h; exact absurd h (by simp)
      · rintro ⟨-, h2, -⟩; omega
    · have hc : (s == "" || decide (254 < s.length)) = false := by
        simp [hemp, hlen]
      rw [hc]
      simp only [Bool.false_eq_true, if_false]
      rw [emailRegexMatches_iff]
      constructor
      · intro h
        refine ⟨hemp, by omega, ?_⟩
        rcases h with h | ⟨cs, heq, h⟩
        · exact Or.inl ((specEmailForm_iff s).mpr h)
        · exact Or.inr ⟨cs, heq, (specEmailForm_iff (String.mk cs)).mpr h⟩
      · rintro ⟨-, -, h | ⟨cs, heq, h⟩⟩
        · exact Or.inl ((specEmailForm_iff s).mp h)
        · exact Or.inr ⟨cs, heq, (specEmailForm_iff (String.mk cs)).mp h⟩

/-- C7 counterexample to the claim as stated: the string `a@b.co` followed
by a newline is accepted by `validate_email` (Python `$` matches before a
trailing newline) but is not of the claimed `localpart@domain.tld` shape. -/
theorem C7_counterexample :
    validate_email "a@b.co\n" = true ∧ specEmailValid "a@b.co\n" = false := by
  decide

/-! ## Handler path equations -/

theorem dynGet_none_filter {tbl : List Entry} {k : String} (h : dynGet tbl k = none) :
    tbl.filter (fun x => x.email != k) = tbl := by
  rw [List.filter_eq_self]
  intro e he
  simpa using List.find?_eq_none.mp h e he

theorem handle_subscribe_success {body : SubscribeBody} {env : RequestEnv}
    {tbl : List Entry} {raw : String}
    (hbe : body.email = some raw) (hbc : body.consent = some true)
    (hval : validate_email (normalizeEmail raw) = true)
    (habs : dynGet tbl (normalizeEmail raw) = none) :
    handle_subscribe body env tbl =
      (⟨200, .subscribed "You have been added to our waiting list!" env.newId⟩,
       tbl ++ [{ email := normalizeEmail raw, id := env.newId, consent := true,
                 consent_timestamp := body.consent_timestamp.getD env.nowIso,
                 source := body.source.getD "landing_page",
                 ip_address := env.clientIp, created_at := env.nowIso }]) := by
  unfold handle_subscribe
  rw [hbe, hbc]
  simp only [Option.getD_some, hval, habs]
  simp [dynPut, dynGet_none_filter habs]

theorem handle_subscribe_duplicate {body : SubscribeBody} {env : RequestEnv}
    {tbl : List Entry} {raw : String} {e : Entry}
    (hbe : body.email = some raw) (hbc : body.consent = some true)
    (hval : validate_email (normalizeEmail raw) = true)
    (hdup : dynGet tbl (normalizeEmail raw) = some e) :
    handle_subscribe body env tbl =
      (⟨400, .det "This email is already on the waitlist."⟩, tbl) := by
  unfold handle_subscribe
  rw [hbe, hbc]
  simp only [Option.getD_some, hval, hdup]
  simp

theorem subscribe_local_success {we : WaitlistEntry} {env : RequestEnv} {doc : FileDoc}
    (hlabs : email_exists (normalizeEmail we.email) (load_waitlist doc) = false) :
    subscribe_local we env doc =
      ⟨⟨200, .subscribed "You have been added to our waiting list!" env.newId⟩,
       save_waitlist (load_waitlist doc ++
         [{ email := normalizeEmail we.email, id := env.newId,
            consent := we.consent, consent_timestamp := we.consent_timestamp,
            source := we.source, ip_address := env.clientIp,
            created_at := env.nowIso }]), true⟩ := by
  simp [subscribe_local, hlabs]

theorem subscribe_local_duplicate {we : WaitlistEntry} {env : RequestEnv} {doc : FileDoc}
    (hdup : email_exists (normalizeEmail we.email) (load_waitlist doc) = true) :
    subscribe_local we env doc =
      ⟨⟨400, .det "This email is already on the waitlist."⟩, doc, false⟩ := by
  simp [subscribe_local, hdup]

/-! ## Claim C1 -/

/-- C1, confirmed.  For every syntactically valid email not already present
in the store, register with consent=true succeeds with the fresh id,
appends exactly one new entry stored under the normalized email, and the
stats count goes up by exactly one.  Proved for both the Lambda/DynamoDB
implementation and the file-backed FastAPI implementation. -/
theorem C1_register_fresh_email_succeeds
    (body : SubscribeBody) (env : RequestEnv) (tbl : List Entry)
    (we : WaitlistEntry) (doc : FileDoc) (raw : String)
    (hbe : body.email = some raw)
    (hbc : body.consent = some true)
    (hval : validate_email (normalizeEmail raw) = true)
    (habs : dynGet tbl (normalizeEmail raw) = none)
    (hlabs : email_exists (normalizeEmail we.email) (load_waitlist doc) = false) :
    ((handle_subscribe body env tbl).1 =
        ⟨200, .subscribed "You have been added to our waiting list!" env.newId⟩ ∧
      (∃ e : Entry, e.email = normalizeEmail raw ∧
        (handle_subscribe body env tbl).2 = tbl ++ [e]) ∧
      handle_get_stats (.ok (dynCount (handle_subscribe body env tbl).2)) =
        ⟨200, .stats (dynCount tbl + 1)⟩) ∧
    ((subscribe_local we env doc).resp =
        ⟨200, .subscribed "You have been added to our waiting list!" env.newId⟩ ∧
      (∃ e : Entry, e.email = normalizeEmail we.email ∧
        load_waitlist (subscribe_local we env doc).doc = load_waitlist doc ++ [e]) ∧
      get_waitlist_stats (subscribe_local we env doc).doc =
        ⟨200, .stats ((load_waitlist doc).length + 1)⟩) := by
  rw [handle_subscribe_success hbe hbc hval habs, subscribe_local_success hlabs]
  refine ⟨⟨rfl, ⟨_, rfl, rfl⟩, ?_⟩, rfl, ⟨_, rfl, rfl⟩, ?_⟩
  · simp [handle_get_stats, dynCount]
  · simp [get_waitlist_stats, save_waitlist, load_waitlist]

/-- C1 witness: a concrete fresh registration on empty stores. -/
theorem C1_witness :
    (SubscribeBody.mk (some "Alice@Example.com") (some true) none none).email =
        some "Alice@Example.com" ∧
    validate_email (normalizeEmail "Alice@Example.com") = true ∧
    dynGet [] (normalizeEmail "Alice@Example.com") = none ∧
    email_exists (normalizeEmail "alice@example.com") (load_waitlist (.good [])) = false ∧
    ((handle_subscribe (SubscribeBody.mk (some "Alice@Example.com") (some true) none none)
        (RequestEnv.mk "id-1" "2026-01-01T00:00:00Z" "1.2.3.4") []).1 =
      ⟨200, .subscribed "You have been added to our waiting list!" "id-1"⟩) := by
  refine ⟨rfl, by decide, rfl, by decide, ?_⟩
  exact (C1_register_fresh_email_succeeds
    (SubscribeBody.mk (some "Alice@Example.com") (some true) none none)
    (RequestEnv.mk "id-1" "2026-01-01T00:00:00Z" "1.2.3.4") []
    (WaitlistEntry.mk "alice@example.com" true "2026-01-01T00:00:00Z" "landing_page")
    (.good []) "Alice@Example.com" rfl rfl (by decide) rfl (by decide)).1.1

/-! ## Claim C2 -/

/-- C2, confirmed.  For an email already present in the store (under its
normalized form, as every entry registered through the API is), register
with the same email or any differently-cased variant fails with the 400
duplicate response and the stored collection is unchanged; in the
file-backed mode no write is performed at all. -/
theorem C2_register_duplicate_conflict
    (x y : String) (e : Entry) (tbl : List Entry)
    (body : SubscribeBody) (env : RequestEnv)
    (we : WaitlistEntry) (doc : FileDoc)
    (hx : x = normalizeEmail x)
    (hcase : toLowerStr y = toLowerStr x)
    (hval : validate_email x = true)
    (hbe : body.email = some y) (hbc : body.consent = some true)
    (hpres : dynGet tbl x = some e)
    (hwe : we.email = y)
    (hlpres : ∃ e2 ∈ load_waitlist doc, toLowerStr e2.email = x) :
    handle_subscribe body env tbl =
      (⟨400, .det "This email is already on the waitlist."⟩, tbl) ∧
    subscribe_local we env doc =
      ⟨⟨400, .det "This email is already on the waitlist."⟩, doc, false⟩ := by
  have hny : normalizeEmail y = x := by
    rw [normalizeEmail_congr_lower hcase, ← hx]
  constructor
  · exact handle_subscribe_duplicate hbe hbc (by rw [hny]; exact hval)
      (by rw [hny]; exact hpres)
  · refine subscribe_local_duplicate ?_
    obtain ⟨e2, he2, hlow⟩ := hlpres
    unfold email_exists
    rw [List.any_eq_true]
    refine ⟨e2, he2, ?_⟩
    rw [hwe, toLowerStr_normalizeEmail, hny, hlow]
    exact beq_self_eq_true x

/-- C2 witness: a concrete duplicate registration with a different casing. -/
theorem C2_witness :
    toLowerStr "ALICE@Example.com" = toLowerStr "alice@example.com" ∧
    handle_subscribe
      (SubscribeBody.mk (some "ALICE@Example.com") (some true) none none)
      (RequestEnv.mk "id-2" "2026-01-01T00:00:00Z" "1.2.3.4")
      [Entry.mk "alice@example.com" "id-1" true "t" "landing_page" "ip" "t"] =
      (⟨400, .det "This email is already on the waitlist."⟩,
       [Entry.mk "alice@example.com" "id-1" true "t" "landing_page" "ip" "t"]) := by
  refine ⟨by decide, ?_⟩
  exact (C2_register_duplicate_conflict "alice@example.com" "ALICE@Example.com"
    (Entry.mk "alice@example.com" "id-1" true "t" "landing_page" "ip" "t")
    [Entry.mk "alice@example.com" "id-1" true "t" "landing_page" "ip" "t"]
    (SubscribeBody.mk (some "ALICE@Example.com") (some true) none none)
    (RequestEnv.mk "id-2" "2026-01-01T00:00:00Z" "1.2.3.4")
    (WaitlistEntry.mk "ALICE@Example.com" true "t" "landing_page")
    (.good [Entry.mk "alice@example.com" "id-1" true "t" "landing_page" "ip" "t"])
    (by decide) (by decide) (by decide) rfl rfl rfl rfl
    ⟨Entry.mk "alice@example.com" "id-1" true "t" "landing_page" "ip" "t",
      by decide, by decide⟩).1

/-! ## Claim C3 -/

theorem handle_subscribe_snd (body : SubscribeBody) (env : RequestEnv)
    (tbl : List Entry) :
    (handle_subscribe body env tbl).2 = tbl ∨
    ∃ en : Entry, en.consent = true ∧
      (handle_subscribe body env tbl).2 =
        tbl.filter (fun x => x.email != en.email) ++ [en] := by
  unfold handle_subscribe
  cases hv : validate_email (normalizeEmail (body.email.getD "")) with
  | false => left; simp [hv]
  | true =>
      cases hc : body.consent.getD false with
      | false => left; simp [hv, hc]
      | true =>
          cases hg : dynGet tbl (normalizeEmail (body.email.getD "")) with
          | some e => left; simp [hv, hc, hg]
          | none =>
              right
              exact ⟨{ email := normalizeEmail (body.email.getD ""),
                       id := env.newId, consent := body.consent.getD false,
                       consent_timestamp := body.consent_timestamp.getD env.nowIso,
                       source := body.source.getD "landing_page",
                       ip_address := env.clientIp, created_at := env.nowIso },
                     hc, by simp [hv, hc, hg, dynPut]⟩

/-- C3, confirmed.  A register request with consent=false or consent absent
always fails with a 400 validation response (invalid email or missing
consent, both client validation conditions) and persists nothing; the
pydantic validator of the FastAPI model likewise rejects a false consent;
consequently in both implementations every persisted entry has
consent=true whenever the prior store did. -/
theorem C3_consent_required :
    (∀ (body : SubscribeBody) (env : RequestEnv) (tbl : List Entry),
        body.consent = none ∨ body.consent = some false →
        (handle_subscribe body env tbl).1.statusCode = 400 ∧
        (handle_subscribe body env tbl).2 = tbl) ∧
    (∀ v w, consent_must_be_true v = .ok w → v = true) ∧
    (∀ (tbl : List Entry) (body : SubscribeBody) (env : RequestEnv),
        (∀ e ∈ tbl, e.consent = true) →
        ∀ e ∈ (handle_subscribe body env tbl).2, e.consent = true) ∧
    (∀ (we : WaitlistEntry) (env : RequestEnv) (doc : FileDoc),
        we.consent = true →
        (∀ e ∈ load_waitlist doc, e.consent = true) →
        ∀ e ∈ load_waitlist (subscribe_local we env doc).doc, e.consent = true) := by
  refine ⟨?_, ?_, ?_, ?_⟩
  · intro body env tbl hcons
    have hc : body.consent.getD false = false := by
      rcases hcons with h | h <;> simp [h]
    unfold handle_subscribe
    cases hv : validate_email (normalizeEmail (body.email.getD "")) with
    | false => simp [hv]
    | true => simp [hv, hc]
  · intro v w h
    cases v with
    | true => rfl
    | false => simp [consent_must_be_true] at h
  · intro tbl body env hinv e he
    rcases handle_subscribe_snd body env tbl with h | ⟨en, henc, h⟩
    · rw [h] at he
      exact hinv e he
    · rw [h] at he
      rcases List.mem_append.mp he with h1 | h2
      · exact hinv e (List.mem_of_mem_filter h1)
      · have : e = en := by simpa using h2
        rw [this]
        exact henc
  · intro we env doc hwc hinv e he
    by_cases hdup : email_exists (normalizeEmail we.email) (load_waitlist doc) = true
    · rw [subscribe_local_duplicate hdup] at he
      exact hinv e he
    · rw [subscribe_local_success (by simpa using hdup)] at he
      simp only [save_waitlist, load_waitlist] at he
      rcases List.mem_append.mp he with h1 | h2
      · exact hinv e h1
      · have he2 : e = Entry.mk (normalizeEmail we.email) env.newId we.consent
            we.consent_timestamp we.source env.clientIp env.nowIso := by
          simpa using h2
        rw [he2]
        exact hwc

/-- C3 witness: consent=false with a valid email is rejected and the table
is unchanged. -/
theorem C3_witness :
    (handle_subscribe (SubscribeBody.mk (some "alice@example.com") (some false) none none)
        (RequestEnv.mk "id-1" "t" "ip") []).1.statusCode = 400 ∧
    (handle_subscribe (SubscribeBody.mk (some "alice@example.com") (some false) none none)
        (RequestEnv.mk "id-1" "t" "ip") []).2 = [] :=
  C3_consent_required.1
    (SubscribeBody.mk (some "alice@example.com") (some false) none none)
    (RequestEnv.mk "id-1" "t" "ip") [] (Or.inr rfl)

/-! ## Claim C4 -/

/-- C4, confirmed.  In the Lambda register handler, structural email
validity is checked before consent: whenever the normalized email is
invalid the response is the invalid-email 400, whatever the consent value
(including consent=false), and nothing is stored. -/
theorem C4_email_validated_before_consent
    (body : SubscribeBody) (env : RequestEnv) (tbl : List Entry)
    (hinv : validate_email (normalizeEmail (body.email.getD "")) = false) :
    handle_subscribe body env tbl = (⟨400, .det "Invalid email address"⟩, tbl) := by
  unfold handle_subscribe
  simp [hinv]

/-- C4 witness: invalid email together with consent=false reports the
invalid-email condition, not the consent condition. -/
theorem C4_witness :
    validate_email (normalizeEmail "not-an-email") = false ∧
    handle_subscribe (SubscribeBody.mk (some "not-an-email") (some false) none none)
        (RequestEnv.mk "id-1" "t" "ip") [] =
      (⟨400, .det "Invalid email address"⟩, []) :=
  ⟨by decide,
   C4_email_validated_before_consent
     (SubscribeBody.mk (some "not-an-email") (some false) none none)
     (RequestEnv.mk "id-1" "t" "ip") [] (by decide)⟩

/-! ## Claim C5 -/

/-- C5 counterexample to the claim as stated: in the file-backed FastAPI
implementation, deregister of a syntactically invalid email is not
rejected with a 400 bad-request; no validation is performed and the
handler reports 404 (nothing matched). -/
theorem C5_counterexample :
    validate_email (normalizeEmail "not-an-email") = false ∧
    (unsubscribe_local "not-an-email" (.good [])).resp.statusCode = 404 := by
  decide

/-- C5, corrected.  Only the Lambda implementation validates the email on
deregister: there an invalid email yields the 400 bad-request response,
using the same `validate_email` rule as register, before any storage
operation.  The file-backed implementation performs no syntax validation:
it filters the stored entries and reports 404 whenever nothing matched
(in particular for every invalid email absent from the file). -/
theorem C5_amended_deregister_validation :
    (∀ (raw : String) (tbl : List Entry),
        validate_email (normalizeEmail raw) = false →
        handle_unsubscribe raw tbl = (⟨400, .det "Invalid email address"⟩, tbl)) ∧
    (∀ (raw : String) (doc : FileDoc),
        ((load_waitlist doc).filter
            (fun e => toLowerStr e.email != normalizeEmail raw)).length =
          (load_waitlist doc).length →
        unsubscribe_local raw doc = ⟨⟨404, .det "Email not found"⟩, doc, false⟩) := by
  constructor
  · intro raw tbl h
    unfold handle_unsubscribe
    simp [h]
  · intro raw doc h
    simp [unsubscribe_local, h]

/-- C5 witness: the amended statement at concrete inputs. -/
theorem C5_witness :
    handle_unsubscribe "not-an-email" [] =
      (⟨400, .det "Invalid email address"⟩, []) ∧
    unsubscribe_local "also-not-an-email" (.good []) =
      ⟨⟨404, .det "Email not found"⟩, .good [], false⟩ :=
  ⟨C5_amended_deregister_validation.1 "not-an-email" [] (by decide),
   C5_amended_deregister_validation.2 "also-not-an-email" (.good []) (by decide)⟩

/-! ## Claim C6 -/

/-- C6: deregister of an absent email is a 404 with the store unchanged in
the Lambda implementation and in the file-backed FastAPI branch; but the
FastAPI production (DynamoDB) branch — cited by the claim — skips the
existence check and reports 200 success on an absent email, diverging
from the claim (spec section 9 itself flags this branch as a bug and
keeps the 404 contract canonical). -/
theorem C6_deregister_absent_divergence :
    handle_unsubscribe "ghost@example.com" [] =
      (⟨404, .det "Email not found"⟩, []) ∧
    unsubscribe_local "ghost@example.com" (.good []) =
      ⟨⟨404, .det "Email not found"⟩, .good [], false⟩ ∧
    unsubscribe_remote "ghost@example.com" [] =
      (⟨200, .okMsg "Email removed from waitlist"⟩, []) := by
  decide

/-! ## More handler path equations -/

theorem handle_unsubscribe_present {raw : String} {tbl : List Entry} {e : Entry}
    (hval : validate_email (normalizeEmail raw) = true)
    (hget : dynGet tbl (normalizeEmail raw) = some e) :
    handle_unsubscribe raw tbl =
      (⟨200, .okMsg "Email removed from waitlist"⟩,
       dynDelete tbl (normalizeEmail raw)) := by
  unfold handle_unsubscribe
  simp [hval, hget]

theorem dyn_register_deregister {tbl : List Entry} {k : String} {en : Entry}
    (habs : dynGet tbl k = none) (hen : en.email = k) :
    dynGet (tbl ++ [en]) k = some en ∧ dynDelete (tbl ++ [en]) k = tbl := by
  constructor
  · simp only [dynGet] at habs ⊢
    rw [List.find?_append, habs, Option.none_or]
    simp [hen]
  · simp only [dynDelete]
    rw [List.filter_append, dynGet_none_filter habs]
    simp [hen]

theorem load_save (es : List Entry) : load_waitlist (save_waitlist es) = es := rfl

theorem email_exists_false_forall {x : String} {es : List Entry}
    (h : email_exists x es = false) :
    ∀ e ∈ es, toLowerStr e.email ≠ toLowerStr x := by
  intro e he
  unfold email_exists at h
  rw [List.any_eq_false] at h
  simpa using h e he

theorem unsubscribe_local_nomatch {raw : String} {doc : FileDoc}
    (h : ((load_waitlist doc).filter
        (fun e => toLowerStr e.email != normalizeEmail raw)).length =
      (load_waitlist doc).length) :
    unsubscribe_local raw doc = ⟨⟨404, .det "Email not found"⟩, doc, false⟩ := by
  simp [unsubscribe_local, h]

theorem unsubscribe_local_match {raw : String} {doc : FileDoc}
    (h : ¬ ((load_waitlist doc).filter
        (fun e => toLowerStr e.email != normalizeEmail raw)).length =
      (load_waitlist doc).length) :
    unsubscribe_local raw doc =
      ⟨⟨200, .okMsg "Email removed from waitlist"⟩,
       save_waitlist ((load_waitlist doc).filter
         (fun e => toLowerStr e.email != normalizeEmail raw)), true⟩ := by
  simp [unsubscribe_local, h]

/-! ## Claim C8 -/

/-- C8, confirmed.  Normalization (lowercase then strip) is idempotent,
and identity is case-insensitive: registering one casing of a valid fresh
email and then deregistering any other casing of it succeeds and leaves
the store exactly as before — in particular without that identity.  Proved
for the Lambda implementation and the file-backed implementation. -/
theorem C8_case_insensitive_roundtrip :
    (∀ s, normalizeEmail (normalizeEmail s) = normalizeEmail s) ∧
    (∀ (body : SubscribeBody) (env : RequestEnv) (tbl : List Entry) (raw1 raw2 : String),
        body.email = some raw1 → body.consent = some true →
        toLowerStr raw2 = toLowerStr raw1 →
        validate_email (normalizeEmail raw1) = true →
        dynGet tbl (normalizeEmail raw1) = none →
        (handle_subscribe body env tbl).1.statusCode = 200 ∧
        (handle_unsubscribe raw2 (handle_subscribe body env tbl).2).1.statusCode = 200 ∧
        (handle_unsubscribe raw2 (handle_subscribe body env tbl).2).2 = tbl) ∧
    (∀ (we : WaitlistEntry) (env : RequestEnv) (doc : FileDoc) (raw2 : String),
        toLowerStr raw2 = toLowerStr we.email →
        email_exists (normalizeEmail we.email) (load_waitlist doc) = false →
        (subscribe_local we env doc).resp.statusCode = 200 ∧
        (unsubscribe_local raw2 (subscribe_local we env doc).doc).resp.statusCode = 200 ∧
        load_waitlist (unsubscribe_local raw2 (subscribe_local we env doc).doc).doc =
          load_waitlist doc ∧
        ∀ e ∈ load_waitlist (unsubscribe_local raw2 (subscribe_local we env doc).doc).doc,
          toLowerStr e.email ≠ normalizeEmail we.email) := by
  refine ⟨normalizeEmail_idem, ?_, ?_⟩
  · intro body env tbl raw1 raw2 hbe hbc hcase hval habs
    have hn2 : normalizeEmail raw2 = normalizeEmail raw1 :=
      normalizeEmail_congr_lower hcase
    obtain ⟨en, henm, htbl, hresp⟩ : ∃ en : Entry, en.email = normalizeEmail raw1 ∧
        (handle_subscribe body env tbl).2 = tbl ++ [en] ∧
        (handle_subscribe body env tbl).1.statusCode = 200 := by
      rw [handle_subscribe_success hbe hbc hval habs]
      exact ⟨_, rfl, rfl, rfl⟩
    have hud := dyn_register_deregister habs henm
    have hv2 : validate_email (normalizeEmail raw2) = true := by
      rw [hn2]; exact hval
    have hg2 : dynGet (tbl ++ [en]) (normalizeEmail raw2) = some en := by
      rw [hn2]; exact hud.1
    have huns : handle_unsubscribe raw2 (tbl ++ [en]) =
        (⟨200, .okMsg "Email removed from waitlist"⟩, tbl) := by
      rw [handle_unsubscribe_present hv2 hg2, hn2, hud.2]
    rw [htbl, huns]
    exact ⟨hresp, rfl, rfl⟩
  · intro we env doc raw2 hcase hlabs
    have hn2 : normalizeEmail raw2 = normalizeEmail we.email :=
      normalizeEmail_congr_lower hcase
    obtain ⟨new, hnewm, hdoc, hresp⟩ : ∃ new : Entry,
        new.email = normalizeEmail we.email ∧
        (subscribe_local we env doc).doc =
          save_waitlist (load_waitlist doc ++ [new]) ∧
        (subscribe_local we env doc).resp.statusCode = 200 := by
      rw [subscribe_local_success hlabs]
      exact ⟨_, rfl, rfl, rfl⟩
    have hkeep : (load_waitlist doc).filter
        (fun e => toLowerStr e.email != normalizeEmail we.email) =
        load_waitlist doc := by
      rw [List.filter_eq_self]
      intro e he
      have h1 := email_exists_false_forall hlabs e he
      rw [toLowerStr_normalizeEmail] at h1
      simpa using h1
    have hnew0 : toLowerStr new.email = normalizeEmail we.email := by
      rw [hnewm, toLowerStr_normalizeEmail]
    have hfilter : (load_waitlist doc ++ [new]).filter
        (fun e => toLowerStr e.email != normalizeEmail raw2) =
        load_waitlist doc := by
      rw [hn2, List.filter_append, hkeep]
      simp [hnew0]
    have hcnt : ¬ ((load_waitlist (save_waitlist (load_waitlist doc ++ [new]))).filter
        (fun e => toLowerStr e.email != normalizeEmail raw2)).length =
        (load_waitlist (save_waitlist (load_waitlist doc ++ [new]))).length := by
      rw [load_save, hfilter]
      simp
    have huns := unsubscribe_local_match hcnt
    rw [load_save, hfilter] at huns
    rw [hdoc, huns]
    refine ⟨hresp, rfl, load_save _, ?_⟩
    intro e he
    rw [load_save] at he
    have h1 := email_exists_false_forall hlabs e he
    rw [toLowerStr_normalizeEmail] at h1
    exact h1

/-- C8 witness: register one casing, deregister another, on concrete data. -/
theorem C8_witness :
    (handle_subscribe (SubscribeBody.mk (some "Alice@Example.com") (some true) none none)
        (RequestEnv.mk "id-1" "t" "ip") []).1.statusCode = 200 ∧
    (handle_unsubscribe "alice@example.com"
        (handle_subscribe (SubscribeBody.mk (some "Alice@Example.com") (some true) none none)
          (RequestEnv.mk "id-1" "t" "ip") []).2).1.statusCode = 200 ∧
    (handle_unsubscribe "alice@example.com"
        (handle_subscribe (SubscribeBody.mk (some "Alice@Example.com") (some true) none none)
          (RequestEnv.mk "id-1" "t" "ip") []).2).2 = [] :=
  C8_case_insensitive_roundtrip.2.1
    (SubscribeBody.mk (some "Alice@Example.com") (some true) none none)
    (RequestEnv.mk "id-1" "t" "ip") [] "Alice@Example.com" "alice@example.com"
    rfl rfl (by decide) (by decide) rfl

/-! ## Claim C9 -/

/-- C9 counterexample to the claim as stated: in the file-backed adapter a
malformed stored document is not surfaced as a 500 service error — it is
read as the empty collection, and file-mode stats report 200 with zero
subscribers. -/
theorem C9_counterexample :
    load_waitlist .malformed = [] ∧
    get_waitlist_stats .malformed = ⟨200, .stats 0⟩ ∧
    (get_waitlist_stats .malformed).statusCode ≠ 500 := by
  decide

/-- C9, corrected.  Remote-adapter faults (a `ClientError` on the table
scan) are surfaced as an opaque 500 distinct from the client conditions;
but the file-backed adapter treats a malformed stored document as an
empty collection (`load_waitlist` returns `[]` on `JSONDecodeError`) and
file-mode stats always answer 200. -/
theorem C9_amended_fault_surfacing :
    (∀ u : Unit, handle_get_stats (.error u) = ⟨500, .det "Database error"⟩) ∧
    (∀ n : Nat, handle_get_stats (.ok n) = ⟨200, .stats n⟩) ∧
    load_waitlist .malformed = [] ∧
    (∀ doc : FileDoc, (get_waitlist_stats doc).statusCode = 200) :=
  ⟨fun _ => rfl, fun _ => rfl, rfl, fun _ => rfl⟩

/-! ## Claim C10 -/

/-- C10, confirmed.  In file-backed mode a successful deregister removes
every stored entry whose lowered email equals the normalized target (the
handler filters the whole list), so no entry with that identity remains
even when the stored file contained duplicates. -/
theorem C10_deregister_removes_all_matches (raw : String) (doc : FileDoc)
    (hsucc : (unsubscribe_local raw doc).resp.statusCode = 200) :
    load_waitlist (unsubscribe_local raw doc).doc =
      (load_waitlist doc).filter
        (fun e => toLowerStr e.email != normalizeEmail raw) ∧
    ∀ e ∈ load_waitlist (unsubscribe_local raw doc).doc,
      toLowerStr e.email ≠ normalizeEmail raw := by
  by_cases h : ((load_waitlist doc).filter
      (fun e => toLowerStr e.email != normalizeEmail raw)).length =
      (load_waitlist doc).length
  · rw [unsubscribe_local_nomatch h] at hsucc
    simp at hsucc
  · rw [unsubscribe_local_match h]
    refine ⟨rfl, ?_⟩
    intro e he
    have := List.of_mem_filter he
    simpa using this

/-- C10 witness: a stored file containing two casings of the same email
loses both of them on one deregister. -/
theorem C10_witness :
    (unsubscribe_local "aLiCe@x.com"
        (.good [Entry.mk "ALICE@x.com" "id-1" true "t" "s" "ip" "t",
                Entry.mk "alice@x.com" "id-2" true "t" "s" "ip" "t"])).resp.statusCode
        = 200 ∧
    load_waitlist (unsubscribe_local "aLiCe@x.com"
        (.good [Entry.mk "ALICE@x.com" "id-1" true "t" "s" "ip" "t",
                Entry.mk "alice@x.com" "id-2" true "t" "s" "ip" "t"])).doc = [] :=
  ⟨by decide, by
    have h := (C10_deregister_removes_all_matches "aLiCe@x.com"
      (.good [Entry.mk "ALICE@x.com" "id-1" true "t" "s" "ip" "t",
              Entry.mk "alice@x.com" "id-2" true "t" "s" "ip" "t"]) (by decide)).1
    rw [h]
    decide⟩

end Terraperf
